import Mathlib

/-
Verification of the column-pruning pipeline and analysis helpers of the
projet_ml_retail repository (src/preprocessing.py, src/utils.py).

Shallow embedding conventions:
* a Table is an ordered list of named, typed columns plus an explicit row
  count (the dataframe index length survives even when every column is
  dropped);
* a cell is `Option Val`: `none` models a missing value (NaN/None),
  `some (Val.num q)` a numeric value (exact rationals stand in for the
  numeric tower, per the spec numerics are opaque primitives), and
  `some (Val.str s)` a categorical/string value;
* a column carries a dtype tag mirroring the pandas dtype: numeric columns
  are the ones selected by select_dtypes(include=number);
* fallible helpers return Except; helpers that print a message and return
  None return Option; plotting and printing side effects are not modelled
  (the rendering sink is an opaque collaborator per the spec).
-/

namespace Retail

/-- A non-missing cell value: numeric (rational) or categorical (string). -/
inductive Val where
  | num (q : ℚ)
  | str (s : String)
deriving DecidableEq

/-- The logical dtype of a column, as pandas reports it. -/
inductive Dtype where
  | numeric
  | cat
deriving DecidableEq

/-- One named column: dtype tag plus the list of cells (length = row count). -/
structure Col where
  name : String
  dtype : Dtype
  cells : List (Option Val)
deriving DecidableEq

/-- A dataframe: explicit row count plus the ordered list of columns. -/
structure Table where
  nrows : ℕ
  cols : List Col
deriving DecidableEq

/-- The non-missing values of a column (pandas dropna view). -/
def Col.nonMissing (c : Col) : List Val :=
  c.cells.filterMap id

/-- The numeric non-missing values of a column. -/
def Col.numVals (c : Col) : List ℚ :=
  c.cells.filterMap fun cell =>
    match cell with
    | some (Val.num q) => some q
    | _ => none

/-- Count of missing cells in a column (df.isna().sum() for that column). -/
def nanCount (c : Col) : ℕ :=
  c.cells.countP fun cell => cell.isNone

/-- Column names of a table (df.columns). -/
def Table.names (T : Table) : List String :=
  T.cols.map Col.name

/-- Sum of a list of rationals. -/
def sumQ (l : List ℚ) : ℚ :=
  l.foldr (· + ·) 0

/-- Stable sort of a list by a rational key, descending (mirrors
sort_values(..., ascending=False); on tied keys the library sort order is
unspecified, so theorems only use sortedness and permutation). -/
def sortKeyDesc {α : Type} (key : α → ℚ) (l : List α) : List α :=
  l.insertionSort fun a b => key b ≤ key a

/-- Round a rational to the nearest integer, ties to even (the rounding mode
of round() on the numeric tower). -/
def rndHalfEven (q : ℚ) : ℤ :=
  let f : ℤ := ⌊q⌋
  if q - f < 1/2 then f
  else if 1/2 < q - f then f + 1
  else if Even f then f else f + 1

/-- Round to two decimal places (Series.round(2) in analyser_nan). -/
def round2 (q : ℚ) : ℚ :=
  (rndHalfEven (q * 100) : ℚ) / 100

/-- One row of the missing-value report: column name, missing count,
missing percentage rounded to two decimals. -/
def nanEntry (nr : ℕ) (c : Col) : String × ℕ × ℚ :=
  (c.name, nanCount c, round2 ((nanCount c : ℚ) / (nr : ℚ) * 100))

/-- analyser_nan from src/utils.py: on an empty dataframe (df.empty, i.e.
zero rows or zero columns) prints a message and returns None; otherwise
builds the {Nb_NaN, Pourcentage} summary over all columns, keeps the rows
with Nb_NaN greater than 0 and sorts by percentage descending. -/
def analyser_nan (T : Table) : Option (List (String × ℕ × ℚ)) :=
  if T.nrows = 0 ∨ T.cols = [] then none
  else
    let resume := T.cols.map (nanEntry T.nrows)
    let kept := resume.filter fun e => decide (0 < e.2.1)
    some (sortKeyDesc (fun e => e.2.2) kept)

/-- The two error kinds of the helpers (spec section 7): ColumnNotFound
embeds ValueError("Colonne inexistante."/"Colonne non trouvée."), NotNumeric
embeds TypeError("La colonne doit être numérique."/"Colonne non numérique."). -/
inductive DErr where
  | columnNotFound
  | notNumeric
deriving DecidableEq

/-- Linear-interpolation quantile of a list of values, missing already
dropped (Series.quantile(q) with the default linear interpolation); None on
an empty list (pandas yields NaN there). -/
def quantileLin (l : List ℚ) (q : ℚ) : Option ℚ :=
  let s := l.insertionSort fun a b => a ≤ b
  match s with
  | [] => none
  | _ :: _ =>
    let h : ℚ := ((s.length - 1 : ℕ) : ℚ) * q
    let f : ℕ := (⌊h⌋).toNat
    let lo := s.getD f 0
    let hi := s.getD (f + 1) lo
    some (lo + (h - (f : ℚ)) * (hi - lo))

/-- A cell is strictly outside the optional IQR bounds; comparisons against
a missing (NaN) bound or on a missing cell are False, as in pandas. -/
def outsideBounds (lo hi : Option ℚ) (cell : Option Val) : Bool :=
  match cell with
  | some (Val.num x) =>
    (match lo with
     | some l => decide (x < l)
     | none => false) ||
    (match hi with
     | some h => decide (h < x)
     | none => false)
  | _ => false

/-- detecter_outliers from src/utils.py: ColumnNotFound if the column is
absent, NotNumeric if it is not numeric dtype, otherwise the count of rows
strictly outside [Q1 - 1.5 IQR, Q3 + 1.5 IQR] together with the two bounds
(None bounds model the NaN quantiles of an all-missing column). -/
def detecter_outliers (T : Table) (colonne : String) :
    Except DErr (ℕ × Option ℚ × Option ℚ) :=
  match T.cols.find? (fun c => decide (c.name = colonne)) with
  | none => Except.error DErr.columnNotFound
  | some c =>
    if c.dtype != Dtype.numeric then Except.error DErr.notNumeric
    else
      match quantileLin c.numVals (1/4), quantileLin c.numVals (3/4) with
      | some q1, some q3 =>
        let iqr := q3 - q1
        let borne_inf := q1 - 3/2 * iqr
        let borne_sup := q3 + 3/2 * iqr
        Except.ok
          (c.cells.countP (outsideBounds (some borne_inf) (some borne_sup)),
           some borne_inf, some borne_sup)
      | _, _ =>
        Except.ok (c.cells.countP (outsideBounds none none), none, none)

/-- afficher_distribution from src/utils.py: the same two guards in the
same order, then a render into the opaque plotting sink (modelled as Unit). -/
def afficher_distribution (T : Table) (colonne : String) (_bins : ℕ) :
    Except DErr Unit :=
  match T.cols.find? (fun c => decide (c.name = colonne)) with
  | none => Except.error DErr.columnNotFound
  | some c =>
    if c.dtype != Dtype.numeric then Except.error DErr.notNumeric
    else Except.ok ()

/-- The rows where both columns have a numeric non-missing value: pandas
correlation uses pairwise-complete observations. -/
def pairedNums (xs ys : List (Option Val)) : List (ℚ × ℚ) :=
  (xs.zip ys).filterMap fun p =>
    match p with
    | (some (Val.num a), some (Val.num b)) => some (a, b)
    | _ => none

/-- Sum of squared deviations from the mean (the Pearson denominator piece;
the 1/(n-1) factors of covariance and variance cancel in the quotient). -/
def devSq (l : List ℚ) : ℚ :=
  if l.length = 0 then 0
  else
    let m := sumQ l / (l.length : ℚ)
    sumQ (l.map fun x => (x - m) ^ 2)

/-- Sum of products of deviations from the means (the Pearson numerator). -/
def devProd (ps : List (ℚ × ℚ)) : ℚ :=
  if ps.length = 0 then 0
  else
    let mx := sumQ (ps.map Prod.fst) / (ps.length : ℚ)
    let my := sumQ (ps.map Prod.snd) / (ps.length : ℚ)
    sumQ (ps.map fun p => (p.1 - mx) * (p.2 - my))

/-- The squared Pearson correlation of two cell lists, as a rational
(0 when undefined). Pearson r = devProd / sqrt(devSq x) / sqrt(devSq y),
so r^2 = devProd^2 / (devSq x * devSq y). -/
def corrSq (xs ys : List (Option Val)) : ℚ :=
  let ps := pairedNums xs ys
  let vx := devSq (ps.map Prod.fst)
  let vy := devSq (ps.map Prod.snd)
  if vx = 0 ∨ vy = 0 then 0 else devProd ps ^ 2 / (vx * vy)

/-- Whether the absolute Pearson correlation of the two cell lists is
defined (not NaN) and strictly above the threshold t. For 0 < t this is
exactly the comparison abs(corr) greater than t that the code performs,
expressed on squares so it stays inside the rationals: with d = devProd and
v = vx * vy one has abs(corr) = abs(d)/sqrt(v), and abs(d)/sqrt(v) > t iff
d^2 > t^2 * v when v > 0 and t is at least 0. A NaN correlation (a constant
column, so vx = 0 or vy = 0) compares False, as in pandas. -/
def absCorrGt (xs ys : List (Option Val)) (t : ℚ) : Bool :=
  let ps := pairedNums xs ys
  let vx := devSq (ps.map Prod.fst)
  let vy := devSq (ps.map Prod.snd)
  decide (0 < vx) && decide (0 < vy) &&
    decide (t ^ 2 * (vx * vy) < devProd ps ^ 2)

/-- Whether the absolute Pearson correlation is defined and at least t
(the comparison corr.iloc[i, j] greater-or-equal seuil of
analyser_correlation, on the absolute-value matrix). For a threshold at
most 0 any defined absolute correlation qualifies. -/
def absCorrGe (xs ys : List (Option Val)) (t : ℚ) : Bool :=
  let ps := pairedNums xs ys
  let vx := devSq (ps.map Prod.fst)
  let vy := devSq (ps.map Prod.snd)
  decide (0 < vx) && decide (0 < vy) &&
    (decide (t ≤ 0) || decide (t ^ 2 * (vx * vy) ≤ devProd ps ^ 2))

/-- The Pearson correlation coefficient itself, as a real number (used on
the specification side of the theorems; defined columns only). -/
noncomputable def pearson (xs ys : List (Option Val)) : ℝ :=
  let ps := pairedNums xs ys
  ((devProd ps : ℚ) : ℝ) /
    (Real.sqrt ((devSq (ps.map Prod.fst) : ℚ) : ℝ) *
     Real.sqrt ((devSq (ps.map Prod.snd) : ℚ) : ℝ))

/-- Fuel-indexed binary search for the integer square root, structurally
recursive so the kernel can evaluate it on concrete inputs. The invariant
is lo^2 ≤ n < hi^2. -/
def sqrtAux (n : ℕ) : ℕ → ℕ → ℕ → ℕ
  | 0, lo, _ => lo
  | fuel + 1, lo, hi =>
    if lo + 1 < hi then
      let mid := (lo + hi) / 2
      if mid * mid ≤ n then sqrtAux n fuel mid hi else sqrtAux n fuel lo mid
    else lo

/-- Floor of the square root of a natural number. -/
def sqrtFloor (n : ℕ) : ℕ :=
  sqrtAux n (n + 2) 0 (n + 1)

/-- Floor of the square root of a non-negative rational: the floor of
sqrt(a/b) is the floor of sqrt(a*b)/b since sqrt(a/b) = sqrt(a*b)/b. -/
def ratSqrtFloor (q : ℚ) : ℕ :=
  sqrtFloor (q.num.toNat * q.den) / q.den

/-- round(abs(corr), 3) computed from the squared correlation: the value
round(1000 * sqrt q) / 1000 with ties to even, entirely inside the
rationals (1000 * sqrt q = sqrt (10^6 * q), its floor k comes from
ratSqrtFloor, and the fractional part is compared with 1/2 by comparing
(k + 1/2)^2 with 10^6 * q). -/
def rnd3sqrt (q : ℚ) : ℚ :=
  let m : ℚ := 1000000 * q
  let k : ℕ := ratSqrtFloor m
  let r : ℕ :=
    if m < ((k : ℚ) + 1/2) ^ 2 then k
    else if ((k : ℚ) + 1/2) ^ 2 < m then k + 1
    else if k % 2 = 0 then k else k + 1
  (r : ℚ) / 1000

/-- The numeric columns of a table (df.select_dtypes(include=number)). -/
def numericCols (T : Table) : List Col :=
  T.cols.filter fun c => c.dtype == Dtype.numeric

/-- All unordered pairs of a list in upper-triangle order: (i, j) with
i before j, iterated exactly as the nested loops
for i in range(n): for j in range(i+1, n). -/
def upairs {α : Type} : List α → List (α × α)
  | [] => []
  | c :: rest => (rest.map fun d => (c, d)) ++ upairs rest

/-- One row of the correlation report: both names and the absolute
correlation rounded to three decimals. -/
def corrEntry (p : Col × Col) : String × String × ℚ :=
  (p.1.name, p.2.name, rnd3sqrt (corrSq p.1.cells p.2.cells))

/-- analyser_correlation from src/utils.py: None when the numeric
sub-dataframe is empty (no numeric column or zero rows); otherwise collect
every upper-triangle pair whose absolute correlation is at least seuil,
rounded to three decimals; None again when no pair qualifies, else the
list sorted by correlation descending. The heatmap flag only triggers a
render into the opaque plotting sink and is not modelled. -/
def analyser_correlation (T : Table) (seuil : ℚ) :
    Option (List (String × String × ℚ)) :=
  let nums := numericCols T
  if nums = [] ∨ T.nrows = 0 then none
  else
    let paires :=
      ((upairs nums).filter fun p => absCorrGe p.1.cells p.2.cells seuil).map
        corrEntry
    if paires = [] then none
    else some (sortKeyDesc (fun e => e.2.2) paires)

/-- nunique() of a column: count of distinct non-missing values. -/
def nuniqueCol (c : Col) : ℕ :=
  c.nonMissing.dedup.length

/-- Step 2 of src/preprocessing.py: names of the columns with at most one
distinct non-missing value. -/
def constant_cols (T : Table) : List String :=
  (T.cols.filter fun c => decide (nuniqueCol c ≤ 1)).map Col.name

/-- value_counts(normalize=True) of a column: the share of each distinct
non-missing value among the non-missing values (value_counts drops missing
values by default, so the denominator is the non-missing count). -/
def valueShares (c : Col) : List ℚ :=
  c.nonMissing.dedup.map fun v =>
    (c.nonMissing.countP fun w => decide (w = v) : ℚ) /
      (c.nonMissing.length : ℚ)

/-- value_counts(normalize=True).max() of a column: None on an all-missing
column (the max of an empty series is NaN). -/
def maxNormFreq (c : Col) : Option ℚ :=
  match c.nonMissing with
  | [] => none
  | _ :: _ => some ((valueShares c).foldr max 0)

/-- Step 3 of src/preprocessing.py: names of the columns whose single most
frequent value covers strictly more than 95 percent of the non-missing
values; an all-missing column never qualifies (NaN compares False). -/
def quasi_const_cols (T : Table) : List String :=
  (T.cols.filter fun c =>
    match maxNormFreq c with
    | none => false
    | some p => decide ((19 : ℚ)/20 < p)).map Col.name

/-- Step 4 of src/preprocessing.py: the hardcoded denylist of
non-pertinent columns. -/
def cols_to_remove : List String :=
  ["CustomerID", "LastLoginIP", "RegistrationDate",
   "IP_privee", "Country_encoded",
   "UniqueCountries", "ZeroPriceCount"]

/-- The denylist restricted to the names present in the table, as the
script computes before dropping. -/
def cols_to_remove_present (T : Table) : List String :=
  cols_to_remove.filter fun n => decide (n ∈ T.names)

/-- Step 5 of src/preprocessing.py: names of the columns whose missing
fraction (df.isna().mean(), denominator the row count) exceeds 0.4; on a
zero-row table the mean is NaN and compares False. -/
def cols_trop_nan (T : Table) : List String :=
  (T.cols.filter fun c =>
    decide ((2 : ℚ)/5 * (T.nrows : ℚ) < (nanCount c : ℚ))).map Col.name

/-- Drop the named columns from a table (df.drop(columns=...); every list
the script passes only holds present names, so the plain filter is exact). -/
def dropCols (names : List String) (T : Table) : Table :=
  { T with cols := T.cols.filter fun c => decide (c.name ∉ names) }

/-- The upper-triangle high-correlation scan of step 6: a column is marked
when some strictly earlier numeric column has absolute correlation
strictly above 0.9 with it. The first argument accumulates the already
visited (earlier) columns. -/
def high_corr_core : List Col → List Col → List String
  | _, [] => []
  | pre, c :: rest =>
    (if pre.any fun p => absCorrGt p.cells c.cells (9/10) then [c.name]
     else []) ++ high_corr_core (pre ++ [c]) rest

/-- Step 6 of src/preprocessing.py: the high-correlation removal list over
the numeric columns, before the target protection. -/
def high_corr_cols (T : Table) : List String :=
  high_corr_core [] (numericCols T)

/-- The target protection of step 6: if "Churn" is in the removal list,
list.remove drops its first occurrence. -/
def protectChurn (l : List String) : List String :=
  if "Churn" ∈ l then l.erase "Churn" else l

/-- Filter 1 (constant columns) as a Table transformation. -/
def step_const (T : Table) : Table :=
  dropCols (constant_cols T) T

/-- Filter 2 (quasi-constant columns) as a Table transformation. -/
def step_quasi (T : Table) : Table :=
  dropCols (quasi_const_cols T) T

/-- Filter 3 (denylist) as a Table transformation. -/
def step_denylist (T : Table) : Table :=
  dropCols (cols_to_remove_present T) T

/-- Filter 4 (high missingness) as a Table transformation. -/
def step_nan (T : Table) : Table :=
  dropCols (cols_trop_nan T) T

/-- Filter 5 (high correlation, with the protected target) as a Table
transformation. -/
def step_corr (T : Table) : Table :=
  dropCols (protectChurn (high_corr_cols T)) T

/-- The whole pruning pipeline (the df_clean the script builds from df):
the five filters in script order. -/
def prune (T : Table) : Table :=
  step_corr (step_nan (step_denylist (step_quasi (step_const T))))

/-- The two dataframe variables of the script: the loaded df and the
working copy df_clean. -/
structure ScriptState where
  df : Table
  df_clean : Table

/-- df_clean = df.copy(): .copy() yields an independent deep copy, so the
two fields start as equal but separate values. -/
def initState (df : Table) : ScriptState :=
  { df := df, df_clean := df }

/-- Each in-place drop of the script rewrites only the df_clean variable. -/
def scriptStepConst (s : ScriptState) : ScriptState :=
  { s with df_clean := step_const s.df_clean }

/-- Step 3 of the script on the state. -/
def scriptStepQuasi (s : ScriptState) : ScriptState :=
  { s with df_clean := step_quasi s.df_clean }

/-- Step 4 of the script on the state. -/
def scriptStepDenylist (s : ScriptState) : ScriptState :=
  { s with df_clean := step_denylist s.df_clean }

/-- Step 5 of the script on the state. -/
def scriptStepNan (s : ScriptState) : ScriptState :=
  { s with df_clean := step_nan s.df_clean }

/-- Step 6 of the script on the state. -/
def scriptStepCorr (s : ScriptState) : ScriptState :=
  { s with df_clean := step_corr s.df_clean }

/-- The whole script run on a loaded table (sections 1 to 6; the final CSV
write is external I/O). -/
def runScript (df : Table) : ScriptState :=
  scriptStepCorr (scriptStepNan (scriptStepDenylist
    (scriptStepQuasi (scriptStepConst (initState df)))))

/-! ### Helper lemmas -/

theorem dropCols_cols (ns : List String) (T : Table) :
    (dropCols ns T).cols = T.cols.filter fun c => decide (c.name ∉ ns) :=
  rfl

theorem mem_dropCols {c : Col} {ns : List String} {T : Table} :
    c ∈ (dropCols ns T).cols ↔ c ∈ T.cols ∧ c.name ∉ ns := by
  simp [dropCols, List.mem_filter]

theorem dropCols_sublist (ns : List String) (T : Table) :
    List.Sublist (dropCols ns T).cols T.cols :=
  List.filter_sublist T.cols

theorem prune_cols_sublist (T : Table) :
    List.Sublist (prune T).cols T.cols :=
  ((((dropCols_sublist _ _).trans (dropCols_sublist _ _)).trans
    (dropCols_sublist _ _)).trans (dropCols_sublist _ _)).trans
    (dropCols_sublist _ _)

theorem prune_nrows (T : Table) : (prune T).nrows = T.nrows :=
  rfl

/-- Membership of a column name in one of the name-of-filtered lists, under
unique column names. -/
theorem name_mem_map_filter {p : Col → Bool} {T : Table} {c : Col}
    (hc : c ∈ T.cols) (hnd : T.names.Nodup) :
    c.name ∈ (T.cols.filter p).map Col.name ↔ p c = true := by
  constructor
  · intro h
    rcases List.mem_map.mp h with ⟨c', hc', hname⟩
    rcases List.mem_filter.mp hc' with ⟨hc'm, hp⟩
    have : c' = c := List.inj_on_of_nodup_map hnd hc'm hc hname
    exact this ▸ hp
  · intro hp
    exact List.mem_map.mpr ⟨c, List.mem_filter.mpr ⟨hc, hp⟩, rfl⟩

/-- A column of the table whose filter predicate holds contributes its name
to the removal list (no uniqueness needed). -/
theorem name_mem_map_filter_of {p : Col → Bool} {T : Table} {c : Col}
    (hc : c ∈ T.cols) (hp : p c = true) :
    c.name ∈ (T.cols.filter p).map Col.name :=
  List.mem_map.mpr ⟨c, List.mem_filter.mpr ⟨hc, hp⟩, rfl⟩

/-- Surviving a dropCols step with the removal list computed by a
name-of-filtered predicate refutes the predicate on the survivor. -/
theorem pred_false_of_mem_drop {p : Col → Bool} {T : Table} {c : Col}
    (h : c ∈ (dropCols ((T.cols.filter p).map Col.name) T).cols) :
    c ∈ T.cols ∧ p c = false := by
  rcases mem_dropCols.mp h with ⟨hc, hname⟩
  refine ⟨hc, ?_⟩
  by_contra hne
  exact hname (name_mem_map_filter_of hc (by
    cases hpv : p c with
    | false => exact absurd hpv hne
    | true => rfl))

theorem foldr_max_lt_iff {θ : ℚ} (hθ : 0 ≤ θ) (l : List ℚ) :
    θ < l.foldr max 0 ↔ ∃ x ∈ l, θ < x := by
  induction l with
  | nil =>
    simp only [List.foldr_nil, List.not_mem_nil]
    constructor
    · intro h; exact absurd h (not_lt.mpr hθ)
    · rintro ⟨x, hx, -⟩; exact absurd hx (by simp)
  | cons a l ih =>
    simp only [List.foldr_cons, lt_max_iff, ih, List.mem_cons]
    constructor
    · rintro (h | ⟨x, hx, hlt⟩)
      · exact ⟨a, Or.inl rfl, h⟩
      · exact ⟨x, Or.inr hx, hlt⟩
    · rintro ⟨x, hx | hx, hlt⟩
      · exact Or.inl (hx ▸ hlt)
      · exact Or.inr ⟨x, hx, hlt⟩

theorem filterMap_id_length_of_all_some {l : List (Option Val)}
    (h : l.all Option.isSome = true) :
    (l.filterMap id).length = l.length := by
  induction l with
  | nil => rfl
  | cons a l ih =>
    simp only [List.all_cons, Bool.and_eq_true] at h
    cases a with
    | none => simp at h
    | some v => simp [List.filterMap_cons, ih h.2]

theorem nonMissing_length_of_all_some {c : Col}
    (h : c.cells.all Option.isSome = true) :
    c.nonMissing.length = c.cells.length :=
  filterMap_id_length_of_all_some h

/-! ### C4: the pruning pipeline only removes whole columns -/

/-- C4: for every input Table, prune (the df_clean construction) preserves
the row count and its columns form a sublist of the input columns, so its
column set is a subset of the input column set and every surviving column
(name and all values) is exactly an input column: nothing is added,
renamed or value-altered. -/
theorem C4_prune_shape (T : Table) :
    (prune T).nrows = T.nrows ∧
    List.Sublist (prune T).cols T.cols ∧
    List.Sublist ((prune T).cols.map Col.name) (T.cols.map Col.name) :=
  ⟨rfl, prune_cols_sublist T, (prune_cols_sublist T).map Col.name⟩

/-! ### C5: the script never mutates the loaded dataframe -/

/-- C5: running the whole script leaves the loaded df untouched: every
filter mutates only the defensive copy df_clean (df.copy()), and that copy
ends as exactly the pipeline output. -/
theorem C5_no_mutation (df : Table) :
    (runScript df).df = df ∧ (runScript df).df_clean = prune df :=
  ⟨rfl, rfl⟩

/-! ### C6: empty and numeric-free inputs -/

/-- C6: a zero-column input yields a zero-column output; a zero-row input
(well-formed, so every column has zero cells) yields a zero-column output
since the constant filter removes every column; and on a table with no
numeric column the high-correlation scan marks nothing, so step 6 cannot
fail. The pipeline is a total function, so it completes on every input. -/
theorem C6_empty_safe (T : Table) :
    (T.cols = [] → (prune T).cols = []) ∧
    ((∀ c ∈ T.cols, c.cells.length = T.nrows) → T.nrows = 0 →
      (prune T).cols = []) ∧
    ((∀ c ∈ T.cols, c.dtype ≠ Dtype.numeric) → high_corr_cols T = []) := by
  refine ⟨?_, ?_, ?_⟩
  · intro h
    exact List.sublist_nil.mp (h ▸ prune_cols_sublist T)
  · intro hwf h0
    have hconst : (step_const T).cols = [] := by
      unfold step_const
      rw [dropCols_cols]
      rw [List.filter_eq_nil_iff]
      intro c hc
      have hlen : c.cells.length = 0 := h0 ▸ hwf c hc
      have hnu : nuniqueCol c ≤ 1 := by
        have : c.cells = [] := List.length_eq_zero.mp hlen
        simp [nuniqueCol, Col.nonMissing, this]
      simp only [decide_eq_true_eq, not_not]
      exact name_mem_map_filter_of hc (by simp [hnu])
    have : List.Sublist (prune T).cols (step_const T).cols :=
      (((dropCols_sublist _ _).trans (dropCols_sublist _ _)).trans
        (dropCols_sublist _ _)).trans (dropCols_sublist _ _)
    exact List.sublist_nil.mp (hconst ▸ this)
  · intro hnum
    have : numericCols T = [] := by
      rw [numericCols, List.filter_eq_nil_iff]
      intro c hc
      simp [hnum c hc]
    rw [high_corr_cols, this]
    rfl

/-
The Batteries rational arithmetic definitions are irreducible by default;
the concrete witness evaluations below go through kernel reduction, so they
are unsealed here (this changes reducibility only, not the definitions).
-/
unseal Rat.mul Rat.inv Rat.add Rat.sub

/-- Builder for a numeric column from optional rationals (test data). -/
def cNum (n : String) (l : List (Option ℚ)) : Col :=
  ⟨n, Dtype.numeric, l.map fun o => o.map Val.num⟩

/-- Builder for a categorical column from optional strings (test data). -/
def cStr (n : String) (l : List (Option String)) : Col :=
  ⟨n, Dtype.cat, l.map fun o => o.map Val.str⟩

/-- The fully empty table: zero rows, zero columns. -/
def T0 : Table := ⟨0, []⟩

/-- A zero-row table with one (empty) column. -/
def T0r : Table := ⟨0, [cNum "v" []]⟩

/-- A table with rows but no numeric column. -/
def TSonly : Table := ⟨3, [cStr "s" [some "a", some "b", some "c"]]⟩

/-- C6 witness: the three edge conditions at concrete inputs. -/
theorem C6_empty_safe_witness :
    (prune T0).cols = [] ∧ (prune T0r).cols = [] ∧
    high_corr_cols TSonly = [] :=
  ⟨(C6_empty_safe T0).1 rfl,
   (C6_empty_safe T0r).2.1 (by decide) rfl,
   (C6_empty_safe TSonly).2.2 (by decide)⟩

/-! ### C8: filters 1, 2 and 4 are exhausted on the pipeline output -/

/-- A survivor of the full pipeline is a survivor of the constant filter
run on the original table, hence of each later intermediate table. -/
theorem mem_prune_chain {T : Table} {c : Col} (h : c ∈ (prune T).cols) :
    c ∈ (step_nan (step_denylist (step_quasi (step_const T)))).cols ∧
    c ∈ (step_quasi (step_const T)).cols ∧
    c ∈ (step_const T).cols ∧ c ∈ T.cols := by
  have h4 := (mem_dropCols.mp h).1
  have h3 := (mem_dropCols.mp h4).1
  have h2 := (mem_dropCols.mp h3).1
  have h1 := (mem_dropCols.mp h2).1
  exact ⟨h4, h2, h1, (mem_dropCols.mp h1).1⟩

theorem survivor_not_constant {T : Table} {c : Col}
    (h : c ∈ (step_const T).cols) : 2 ≤ nuniqueCol c := by
  have := pred_false_of_mem_drop (p := fun c => decide (nuniqueCol c ≤ 1)) h
  have hle := this.2
  simp only [decide_eq_false_iff_not, not_le] at hle
  exact hle

theorem survivor_not_quasi {S : Table} {c : Col}
    (h : c ∈ (step_quasi S).cols) :
    ∀ p, maxNormFreq c = some p → p ≤ (19 : ℚ)/20 := by
  have hp := (pred_false_of_mem_drop (p := fun c =>
    match maxNormFreq c with
    | none => false
    | some p => decide ((19 : ℚ)/20 < p)) h).2
  intro p hmf
  rw [hmf] at hp
  simpa [not_lt] using hp

theorem survivor_not_nan {S : Table} {c : Col}
    (h : c ∈ (step_nan S).cols) :
    (nanCount c : ℚ) ≤ (2 : ℚ)/5 * (S.nrows : ℚ) := by
  have hp := (pred_false_of_mem_drop (p := fun c =>
    decide ((2 : ℚ)/5 * (S.nrows : ℚ) < (nanCount c : ℚ))) h).2
  simpa [not_lt] using hp

/-- C8: re-running the constant, quasi-constant and high-missingness
filters on the pipeline output removes nothing: their removal lists are
empty, because every surviving column still has at least two distinct
non-missing values, a most-frequent-value share at most 0.95 of its
non-missing values, and a missing fraction at most 0.40 of the (unchanged)
row count. -/
theorem C8_idempotent_filters (T : Table) :
    constant_cols (prune T) = [] ∧
    quasi_const_cols (prune T) = [] ∧
    cols_trop_nan (prune T) = [] ∧
    (∀ c ∈ (prune T).cols,
      2 ≤ nuniqueCol c ∧
      (∀ p, maxNormFreq c = some p → p ≤ (19 : ℚ)/20) ∧
      (nanCount c : ℚ) ≤ (2 : ℚ)/5 * (T.nrows : ℚ)) := by
  have hmain : ∀ c ∈ (prune T).cols,
      2 ≤ nuniqueCol c ∧
      (∀ p, maxNormFreq c = some p → p ≤ (19 : ℚ)/20) ∧
      (nanCount c : ℚ) ≤ (2 : ℚ)/5 * (T.nrows : ℚ) := by
    intro c hc
    rcases mem_prune_chain hc with ⟨h4, h2, h1, -⟩
    refine ⟨survivor_not_constant h1, survivor_not_quasi h2, ?_⟩
    have hnan := survivor_not_nan
      (S := step_denylist (step_quasi (step_const T))) h4
    exact hnan
  refine ⟨?_, ?_, ?_, hmain⟩
  · rw [constant_cols, List.map_eq_nil_iff, List.filter_eq_nil_iff]
    intro c hc
    have := (hmain c hc).1
    simp only [decide_eq_true_eq]
    omega
  · rw [quasi_const_cols, List.map_eq_nil_iff, List.filter_eq_nil_iff]
    intro c hc
    have := (hmain c hc).2.1
    cases hmf : maxNormFreq c with
    | none => simp
    | some p => simp [not_lt.mpr (this p hmf)]
  · rw [cols_trop_nan, List.map_eq_nil_iff, List.filter_eq_nil_iff]
    intro c hc
    have := (hmain c hc).2.2
    rw [prune_nrows]
    simp [not_lt.mpr this]

/-- A two-valued numeric column that the pipeline keeps untouched. -/
def colK : Col := cNum "k" [some 1, some 2]

/-- A one-column table for the C8 witness. -/
def T8 : Table := ⟨2, [colK]⟩

/-- C8 witness: the surviving column of a concrete pruned table still
passes all three per-column bounds, and the three re-run filters remove
nothing. -/
theorem C8_idempotent_filters_witness :
    2 ≤ nuniqueCol colK ∧
    (nanCount colK : ℚ) ≤ (2 : ℚ)/5 * ((T8.nrows : ℕ) : ℚ) ∧
    constant_cols (prune T8) = [] := by
  have h := C8_idempotent_filters T8
  have hm := h.2.2.2 colK (by decide)
  exact ⟨hm.1, hm.2.2, h.1⟩

/-! ### C3: the protected target column survives the correlation filter -/

/-- The upper-triangle scan emits a sublist of the names it scans. -/
theorem high_corr_core_sublist (l : List Col) :
    ∀ pre, List.Sublist (high_corr_core pre l) (l.map Col.name) := by
  induction l with
  | nil => intro pre; simp [high_corr_core]
  | cons c rest ih =>
    intro pre
    rw [high_corr_core]
    by_cases h : (pre.any fun p => absCorrGt p.cells c.cells (9/10)) = true
    · simp only [h, if_true, List.map_cons]
      exact (ih (pre ++ [c])).cons₂ c.name
    · simp only [Bool.not_eq_true] at h
      simp only [h, Bool.false_eq_true, if_false, List.nil_append,
        List.map_cons]
      exact (ih (pre ++ [c])).cons c.name

/-- With unique column names the raw high-correlation list has no
duplicates. -/
theorem high_corr_cols_nodup {T : Table} (hnd : T.names.Nodup) :
    (high_corr_cols T).Nodup := by
  have h1 : List.Sublist (high_corr_cols T) ((numericCols T).map Col.name) :=
    high_corr_core_sublist (numericCols T) []
  have h2 : List.Sublist ((numericCols T).map Col.name) T.names :=
    (List.filter_sublist T.cols).map Col.name
  exact ((h1.trans h2).nodup hnd)

/-- C3: whenever the table has unique column names, the protected target
"Churn" is absent from the final removal set of the high-correlation
filter, and if present in the table it survives the filter, whatever the
correlations are. -/
theorem C3_churn_protected (T : Table) (hnd : T.names.Nodup) :
    "Churn" ∉ protectChurn (high_corr_cols T) ∧
    ("Churn" ∈ T.names → "Churn" ∈ (step_corr T).names) := by
  have hnotin : "Churn" ∉ protectChurn (high_corr_cols T) := by
    rw [protectChurn]
    by_cases hmem : "Churn" ∈ high_corr_cols T
    · simp only [hmem, if_true]
      intro hcontra
      exact absurd
        (((high_corr_cols_nodup hnd).mem_erase_iff.mp hcontra).1) (by simp)
    · rw [if_neg hmem]; exact hmem
  refine ⟨hnotin, fun hchurn => ?_⟩
  rcases List.mem_map.mp hchurn with ⟨c, hc, hname⟩
  refine List.mem_map.mpr ⟨c, ?_, hname⟩
  rw [step_corr, dropCols_cols, List.mem_filter]
  exact ⟨hc, by simpa [hname] using hnotin⟩

/-- Two numeric columns with identical values, the protected one second so
that the upper-triangle scan marks it. -/
def colXC : Col := cNum "X" [some 1, some 2]

/-- The protected column, perfectly correlated with colXC. -/
def colChurn : Col := cNum "Churn" [some 1, some 2]

/-- A table where "Churn" is marked by the raw high-correlation scan. -/
def TC : Table := ⟨2, [colXC, colChurn]⟩

/-- C3 witness: on the concrete table the raw scan does mark "Churn"
(its squared correlation with X is exactly 1), yet the final removal set
omits it and it survives the filter. -/
theorem C3_churn_protected_witness :
    corrSq colXC.cells colChurn.cells = 1 ∧
    "Churn" ∈ high_corr_cols TC ∧
    "Churn" ∉ protectChurn (high_corr_cols TC) ∧
    "Churn" ∈ (step_corr TC).names :=
  ⟨by decide, by decide,
   (C3_churn_protected TC (by decide)).1,
   (C3_churn_protected TC (by decide)).2 (by decide)⟩

/-! ### C7: error conditions of the two column helpers -/

/-- C7: with unique column names, detecter_outliers and
afficher_distribution fail with ColumnNotFound exactly when the named
column is absent, fail with NotNumeric exactly when it is present but not
numeric, and succeed otherwise (so no other error is possible); the two
helpers fail identically. -/
theorem C7_error_conditions (T : Table) (colonne : String)
    (hnd : T.names.Nodup) :
    (detecter_outliers T colonne = Except.error DErr.columnNotFound ↔
      ∀ c ∈ T.cols, c.name ≠ colonne) ∧
    (detecter_outliers T colonne = Except.error DErr.notNumeric ↔
      ∃ c ∈ T.cols, c.name = colonne ∧ c.dtype ≠ Dtype.numeric) ∧
    ((∃ r, detecter_outliers T colonne = Except.ok r) ↔
      ∃ c ∈ T.cols, c.name = colonne ∧ c.dtype = Dtype.numeric) ∧
    (∀ e, afficher_distribution T colonne 30 = Except.error e ↔
      detecter_outliers T colonne = Except.error e) ∧
    (afficher_distribution T colonne 30 = Except.ok () ↔
      ∃ r, detecter_outliers T colonne = Except.ok r) := by
  cases hfind : T.cols.find? (fun c => decide (c.name = colonne)) with
  | none =>
    have habs : ∀ c ∈ T.cols, c.name ≠ colonne := by
      intro c hc
      have := List.find?_eq_none.mp hfind c hc
      simpa using this
    have hd : detecter_outliers T colonne = Except.error DErr.columnNotFound := by
      rw [detecter_outliers, hfind]
    have ha : afficher_distribution T colonne 30 =
        Except.error DErr.columnNotFound := by
      rw [afficher_distribution, hfind]
    refine ⟨iff_of_true hd habs, ?_, ?_, ?_, ?_⟩
    · rw [hd]
      constructor
      · intro h; exact absurd h (by simp)
      · rintro ⟨c, hc, hn, -⟩; exact absurd hn (habs c hc)
    · rw [hd]
      constructor
      · rintro ⟨r, hr⟩; exact absurd hr (by simp)
      · rintro ⟨c, hc, hn, -⟩; exact absurd hn (habs c hc)
    · intro e
      rw [ha, hd]
      constructor
      · intro h; cases Except.error.inj h; rfl
      · intro h; cases Except.error.inj h; rfl
    · rw [ha, hd]
      constructor
      · intro h; exact absurd h (by simp)
      · rintro ⟨r, hr⟩; exact absurd hr (by simp)
  | some c =>
    have hname : c.name = colonne := by
      have := List.find?_some hfind
      simpa using this
    have hmem : c ∈ T.cols := List.mem_of_find?_eq_some hfind
    have huniq : ∀ c' ∈ T.cols, c'.name = colonne → c' = c := by
      intro c' hc' hn'
      exact List.inj_on_of_nodup_map hnd hc' hmem (by rw [hn', hname])
    by_cases hdt : c.dtype = Dtype.numeric
    · have hok : ∃ r, detecter_outliers T colonne = Except.ok r := by
        rw [detecter_outliers, hfind]
        simp only [hdt, bne_self_eq_false, Bool.false_eq_true, if_false]
        cases quantileLin c.numVals (1/4) with
        | none => exact ⟨_, rfl⟩
        | some q1 =>
          cases quantileLin c.numVals (3/4) with
          | none => exact ⟨_, rfl⟩
          | some q3 => exact ⟨_, rfl⟩
      obtain ⟨r, hr⟩ := hok
      have ha : afficher_distribution T colonne 30 = Except.ok () := by
        rw [afficher_distribution, hfind]
        simp [hdt]
      refine ⟨?_, ?_, ?_, ?_, ?_⟩
      · rw [hr]
        constructor
        · intro h; exact absurd h (by simp)
        · intro hall; exact absurd hname (hall c hmem)
      · rw [hr]
        constructor
        · intro h; exact absurd h (by simp)
        · rintro ⟨c', hc', hn', hdt'⟩
          exact absurd (huniq c' hc' hn' ▸ hdt) hdt'
      · exact iff_of_true ⟨r, hr⟩ ⟨c, hmem, hname, hdt⟩
      · intro e
        rw [ha, hr]
        constructor
        · intro h; exact absurd h (by simp)
        · intro h; exact absurd h (by simp)
      · exact iff_of_true ha ⟨r, hr⟩
    · have hd : detecter_outliers T colonne = Except.error DErr.notNumeric := by
        rw [detecter_outliers, hfind]
        simp [bne_iff_ne, hdt]
      have ha : afficher_distribution T colonne 30 =
          Except.error DErr.notNumeric := by
        rw [afficher_distribution, hfind]
        simp [bne_iff_ne, hdt]
      refine ⟨?_, ?_, ?_, ?_, ?_⟩
      · rw [hd]
        constructor
        · intro h
          exact absurd (Except.error.inj h) (by simp)
        · intro hall; exact absurd hname (hall c hmem)
      · exact iff_of_true hd ⟨c, hmem, hname, hdt⟩
      · rw [hd]
        constructor
        · rintro ⟨r, hr⟩; exact absurd hr (by simp)
        · rintro ⟨c', hc', hn', hdt'⟩
          exact absurd (huniq c' hc' hn' ▸ hdt') hdt
      · intro e
        rw [ha, hd]
        constructor
        · intro h; cases Except.error.inj h; rfl
        · intro h; cases Except.error.inj h; rfl
      · rw [ha, hd]
        constructor
        · intro h; exact absurd h (by simp)
        · rintro ⟨r, hr⟩; exact absurd hr (by simp)

/-- A table with one numeric and one categorical column for the C7
witness. -/
def Tmix : Table :=
  ⟨2, [cNum "n" [some 1, some 2], cStr "s" [some "a", some "b"]]⟩

/-- C7 witness: on the concrete table, an absent name gives ColumnNotFound
on both helpers, the categorical column gives NotNumeric, and the numeric
column succeeds. -/
theorem C7_error_conditions_witness :
    detecter_outliers Tmix "zzz" = Except.error DErr.columnNotFound ∧
    detecter_outliers Tmix "s" = Except.error DErr.notNumeric ∧
    afficher_distribution Tmix "zzz" 30 = Except.error DErr.columnNotFound ∧
    afficher_distribution Tmix "n" 30 = Except.ok () := by
  have h1 := (C7_error_conditions Tmix "zzz" (by decide)).1.mpr (by decide)
  have h2 := (C7_error_conditions Tmix "s" (by decide)).2.1.mpr
    ⟨cStr "s" [some "a", some "b"], by decide, rfl, by decide⟩
  have h3 := ((C7_error_conditions Tmix "zzz" (by decide)).2.2.2.1
    DErr.columnNotFound).mpr h1
  have h4 := (C7_error_conditions Tmix "n" (by decide)).2.2.2.2.mpr
    ((C7_error_conditions Tmix "n" (by decide)).2.2.1.mpr
      ⟨cNum "n" [some 1, some 2], by decide, rfl, rfl⟩)
  exact ⟨h1, h2, h3, h4⟩

/-! ### C10: the outlier count semantics -/

/-- Characterization of strict out-of-bounds membership: only a numeric
non-missing cell strictly below the lower bound or strictly above the
upper bound qualifies. -/
theorem outsideBounds_iff (lo hi : Option ℚ) (cell : Option Val) :
    outsideBounds lo hi cell = true ↔
      (∃ x lb, cell = some (Val.num x) ∧ lo = some lb ∧ x < lb) ∨
      (∃ x hb, cell = some (Val.num x) ∧ hi = some hb ∧ hb < x) := by
  cases cell with
  | none => simp [outsideBounds]
  | some v =>
    cases v with
    | str s => simp [outsideBounds]
    | num x =>
      cases lo with
      | none => cases hi with
        | none => simp [outsideBounds]
        | some hb => simp [outsideBounds]
      | some lb => cases hi with
        | none => simp [outsideBounds]
        | some hb => simp [outsideBounds]

/-- A value exactly equal to a bound is never strictly outside consistent
bounds. -/
theorem outsideBounds_at_bounds {lb hb : ℚ} (hle : lb ≤ hb) :
    outsideBounds (some lb) (some hb) (some (Val.num lb)) = false ∧
    outsideBounds (some lb) (some hb) (some (Val.num hb)) = false := by
  constructor <;> simp [outsideBounds, lt_irrefl, not_lt.mpr hle]

/-- C10: whenever detecter_outliers succeeds on a (present, numeric)
column, the returned count is exactly the number of rows of that column
strictly outside the returned bounds; a missing cell never qualifies, a
qualifying cell is exactly a numeric value strictly below the lower bound
or strictly above the upper bound, and a value equal to either (ordered)
bound never qualifies. -/
theorem C10_outlier_count (T : Table) (colonne : String) (c : Col)
    (hfind : T.cols.find? (fun x => decide (x.name = colonne)) = some c)
    (hdt : c.dtype = Dtype.numeric) :
    ∀ n lo hi, detecter_outliers T colonne = Except.ok (n, lo, hi) →
      (n = c.cells.countP (outsideBounds lo hi) ∧
       (∀ cell, outsideBounds lo hi cell = true ↔
         (∃ x lb, cell = some (Val.num x) ∧ lo = some lb ∧ x < lb) ∨
         (∃ x hb, cell = some (Val.num x) ∧ hi = some hb ∧ hb < x)) ∧
       outsideBounds lo hi none = false ∧
       (∀ lb hb, lo = some lb → hi = some hb → lb ≤ hb →
         outsideBounds lo hi (some (Val.num lb)) = false ∧
         outsideBounds lo hi (some (Val.num hb)) = false)) := by
  intro n lo hi hok
  refine ⟨?_, fun cell => outsideBounds_iff lo hi cell, rfl, ?_⟩
  · rw [detecter_outliers, hfind] at hok
    simp only [hdt, bne_self_eq_false, Bool.false_eq_true, if_false] at hok
    cases hq1 : quantileLin c.numVals (1/4) with
    | none =>
      rw [hq1] at hok
      simp only [] at hok
      obtain ⟨hn, hlo, hhi⟩ : _ ∧ _ ∧ _ := by simpa using hok
      rw [← hn, ← hlo, ← hhi]
    | some q1 =>
      cases hq3 : quantileLin c.numVals (3/4) with
      | none =>
        rw [hq1, hq3] at hok
        obtain ⟨hn, hlo, hhi⟩ : _ ∧ _ ∧ _ := by simpa using hok
        rw [← hn, ← hlo, ← hhi]
      | some q3 =>
        rw [hq1, hq3] at hok
        obtain ⟨hn, hlo, hhi⟩ : _ ∧ _ ∧ _ := by simpa using hok
        rw [← hn, ← hlo, ← hhi]
  · intro lb hb hlo hhi hle
    subst hlo
    subst hhi
    exact outsideBounds_at_bounds hle

/-- The ten-value numeric column of the spec example [1..9, 100]. -/
def colV : Col :=
  cNum "v" ([1, 2, 3, 4, 5, 6, 7, 8, 9, 100].map some)

/-- The one-column table of the spec example. -/
def Tout : Table := ⟨10, [colV]⟩

/-- C10 witness: on the spec example the quantiles give bounds -3.5 and
14.5, exactly one row (100) is strictly outside, a missing cell never
counts and each bound itself never counts. -/
theorem C10_outlier_count_witness :
    detecter_outliers Tout "v" =
      Except.ok (1, some (-(7 : ℚ)/2), some ((29 : ℚ)/2)) ∧
    1 = colV.cells.countP
      (outsideBounds (some (-(7 : ℚ)/2)) (some ((29 : ℚ)/2))) ∧
    outsideBounds (some (-(7 : ℚ)/2)) (some ((29 : ℚ)/2)) none = false ∧
    outsideBounds (some (-(7 : ℚ)/2)) (some ((29 : ℚ)/2))
      (some (Val.num ((29 : ℚ)/2))) = false := by
  have heq : detecter_outliers Tout "v" =
      Except.ok (1, some (-(7 : ℚ)/2), some ((29 : ℚ)/2)) := by rfl
  have h := C10_outlier_count Tout "v" colV (by rfl) rfl 1
    (some (-(7 : ℚ)/2)) (some ((29 : ℚ)/2)) heq
  exact ⟨heq, h.1, h.2.2.1,
    (h.2.2.2 (-(7 : ℚ)/2) ((29 : ℚ)/2) rfl rfl (by norm_num)).2⟩


/-! ### C1: the missing-value summary on missing-free and empty input -/

/-- A non-empty table with one column and no missing value. -/
def TnoNaN : Table := ⟨1, [cStr "a" [some "x"]]⟩

/-- C1 counterexample: on a non-empty table without missing values,
analyser_nan returns an empty report object (some []), not the explicit
no-data signal (none) the claim requires. -/
theorem C1_counterexample :
    analyser_nan TnoNaN = some [] ∧
    TnoNaN.nrows ≠ 0 ∧ TnoNaN.cols ≠ [] ∧
    (∀ c ∈ TnoNaN.cols, nanCount c = 0) ∧
    analyser_nan TnoNaN ≠ none := by
  have h : analyser_nan TnoNaN = some [] := by rfl
  exact ⟨h, by decide, by decide, by decide, by rw [h]; simp⟩

/-- C1 amended: analyser_nan returns the explicit no-data signal (None)
exactly when the table is empty (zero rows or zero columns); on a
non-empty table without missing values it instead returns a report object
with zero rows (an empty report, distinguishable from None only by being
a report). -/
theorem C1_amended (T : Table) :
    (analyser_nan T = none ↔ T.nrows = 0 ∨ T.cols = []) ∧
    (T.nrows ≠ 0 → T.cols ≠ [] → (∀ c ∈ T.cols, nanCount c = 0) →
      analyser_nan T = some []) := by
  constructor
  · by_cases h : T.nrows = 0 ∨ T.cols = []
    · simp [analyser_nan, h]
    · simp [analyser_nan, h]
  · intro h1 h2 hno
    have hcond : ¬(T.nrows = 0 ∨ T.cols = []) := by tauto
    rw [analyser_nan, if_neg hcond]
    have hfilter : (T.cols.map (nanEntry T.nrows)).filter
        (fun e => decide (0 < e.2.1)) = [] := by
      rw [List.filter_eq_nil_iff]
      intro e he
      rcases List.mem_map.mp he with ⟨c, hc, rfl⟩
      simp [nanEntry, hno c hc]
    show some (sortKeyDesc (fun e => e.2.2)
      ((T.cols.map (nanEntry T.nrows)).filter
        (fun e => decide (0 < e.2.1)))) = some []
    rw [hfilter]
    rfl

/-- C1 witness: the amended behaviour at concrete inputs: the empty table
gives the no-data signal, the missing-free table gives the empty report. -/
theorem C1_amended_witness :
    analyser_nan TnoNaN = some [] ∧ analyser_nan T0 = none :=
  ⟨(C1_amended TnoNaN).2 (by decide) (by decide) (by decide),
   (C1_amended T0).1.mpr (by decide)⟩

/-! ### C2: the quasi-constant filter counts over non-missing values -/

/-- The share-of-all-rows removal criterion the claim states: some value
covers strictly more than 95 percent of all rows of the table. -/
def claimShareAllRows (T : Table) (c : Col) : Prop :=
  ∃ v ∈ c.nonMissing,
    (19 : ℚ)/20 * (T.nrows : ℚ) <
      (c.nonMissing.countP fun w => decide (w = v) : ℚ)

/-- A column whose single value covers all non-missing cells but only half
of the rows. -/
def colHalf : Col := cStr "a" [some "x", none]

/-- The two-row table around colHalf. -/
def Tnanq : Table := ⟨2, [colHalf]⟩

/-- C2 counterexample: the filter removes the column "a" (its value "x"
covers 100 percent of the non-missing cells) even though no value covers
more than 95 percent of all rows ("x" covers half of them), refuting the
share-of-all-rows iff. -/
theorem C2_counterexample :
    "a" ∈ quasi_const_cols Tnanq ∧
    colHalf ∈ Tnanq.cols ∧
    ¬ claimShareAllRows Tnanq colHalf :=
  ⟨by decide, by decide, by unfold claimShareAllRows; decide⟩

/-- C2 amended: the quasi-constant filter removes a column (of a table
with unique column names) iff some value covers strictly more than 95
percent of its non-missing cells (value_counts drops missing values); for
a column without missing values this share coincides with the share of
all rows, since then the non-missing count equals the cell count. -/
theorem C2_amended (T : Table) (c : Col) (hc : c ∈ T.cols)
    (hnd : T.names.Nodup) :
    (c.name ∈ quasi_const_cols T ↔
      ∃ v ∈ c.nonMissing,
        (19 : ℚ)/20 * (c.nonMissing.length : ℚ) <
          (c.nonMissing.countP fun w => decide (w = v) : ℚ)) ∧
    (c.cells.all Option.isSome = true →
      c.nonMissing.length = c.cells.length) := by
  refine ⟨?_, nonMissing_length_of_all_some⟩
  have h1 := name_mem_map_filter (p := fun c =>
    match maxNormFreq c with
    | none => false
    | some p => decide ((19 : ℚ)/20 < p)) hc hnd
  rw [quasi_const_cols]
  by_cases hnil : c.nonMissing = []
  · refine h1.trans ?_
    simp only [maxNormFreq, hnil]
    simp
  · have hm : (0 : ℚ) < (c.nonMissing.length : ℚ) :=
      by exact_mod_cast List.length_pos.mpr hnil
    obtain ⟨v0, rest, hnm⟩ := List.exists_cons_of_ne_nil hnil
    have hmf : maxNormFreq c = some ((valueShares c).foldr max 0) := by
      simp only [maxNormFreq, hnm]
    have hkey : ((fun c => match maxNormFreq c with
        | none => false
        | some p => decide ((19 : ℚ)/20 < p)) c = true) ↔
        (19 : ℚ)/20 < (valueShares c).foldr max 0 := by
      simp only [hmf, decide_eq_true_eq]
    refine (h1.trans hkey).trans ?_
    rw [foldr_max_lt_iff (by norm_num)]
    unfold valueShares
    constructor
    · rintro ⟨s, hs, hlt⟩
      rcases List.mem_map.mp hs with ⟨v, hv, rfl⟩
      exact ⟨v, List.mem_dedup.mp hv, (lt_div_iff₀ hm).mp hlt⟩
    · rintro ⟨v, hv, hlt⟩
      exact ⟨_, List.mem_map.mpr ⟨v, List.mem_dedup.mpr hv, rfl⟩,
        (lt_div_iff₀ hm).mpr hlt⟩

/-- A column whose most frequent value covers 96 percent of its (all
non-missing) cells. -/
def colP96 : Col := cStr "p96" (List.replicate 24 (some "a") ++ [some "b"])

/-- The table around colP96. -/
def T96 : Table := ⟨25, [colP96]⟩

/-- A column whose most frequent value covers exactly 95 percent of its
cells. -/
def colP95 : Col := cStr "p95" (List.replicate 19 (some "a") ++ [some "b"])

/-- The table around colP95. -/
def T95 : Table := ⟨20, [colP95]⟩

/-- C2 witness: a 96-percent column is removed, an exactly-95-percent
column is kept (strict comparison), and for the missing-free column the
two denominators coincide. -/
theorem C2_amended_witness :
    "p96" ∈ quasi_const_cols T96 ∧
    "p95" ∉ quasi_const_cols T95 ∧
    colP96.nonMissing.length = colP96.cells.length := by
  refine ⟨?_, ?_, ?_⟩
  · exact (C2_amended T96 colP96 (by decide) (by decide)).1.mpr (by decide)
  · intro h
    exact absurd ((C2_amended T95 colP95 (by decide) (by decide)).1.mp h)
      (by decide)
  · exact (C2_amended T96 colP96 (by decide) (by decide)).2 (by decide)

/-! ### C9: the correlation-pair report -/

/-- The squared comparison against the threshold is exactly the comparison
of the absolute Pearson quotient, when both deviation sums are positive. -/
theorem corr_ge_iff_sq {d vx vy t : ℚ} (hvx : 0 < vx) (hvy : 0 < vy)
    (ht : 0 < t) :
    (t ^ 2 * (vx * vy) ≤ d ^ 2) ↔
    (t : ℝ) ≤
      |((d : ℚ) : ℝ) /
        (Real.sqrt ((vx : ℚ) : ℝ) * Real.sqrt ((vy : ℚ) : ℝ))| := by
  have hvxR : (0 : ℝ) < ((vx : ℚ) : ℝ) := by exact_mod_cast hvx
  have hvyR : (0 : ℝ) < ((vy : ℚ) : ℝ) := by exact_mod_cast hvy
  have htR : (0 : ℝ) < ((t : ℚ) : ℝ) := by exact_mod_cast ht
  have hprod : (0 : ℝ) <
      Real.sqrt ((vx : ℚ) : ℝ) * Real.sqrt ((vy : ℚ) : ℝ) :=
    mul_pos (Real.sqrt_pos.mpr hvxR) (Real.sqrt_pos.mpr hvyR)
  rw [abs_div, abs_of_pos hprod, le_div_iff₀ hprod]
  rw [← pow_le_pow_iff_left₀
    (mul_nonneg htR.le hprod.le) (abs_nonneg _) (two_ne_zero)]
  rw [mul_pow, sq_abs, mul_pow, Real.sq_sqrt hvxR.le, Real.sq_sqrt hvyR.le]
  constructor
  · intro h; exact_mod_cast h
  · intro h; exact_mod_cast h

/-- For a positive threshold, the comparison the report performs holds
exactly when the Pearson correlation is defined (both deviation sums
positive) and its absolute value is at least the threshold. -/
theorem absCorrGe_iff_pearson (xs ys : List (Option Val)) {t : ℚ}
    (ht : 0 < t) :
    (absCorrGe xs ys t = true ↔
      (0 < devSq ((pairedNums xs ys).map Prod.fst) ∧
       0 < devSq ((pairedNums xs ys).map Prod.snd) ∧
       (t : ℝ) ≤ |pearson xs ys|)) := by
  simp only [absCorrGe, Bool.and_eq_true, decide_eq_true_eq, Bool.or_eq_true]
  constructor
  · rintro ⟨⟨hvx, hvy⟩, hor⟩
    refine ⟨hvx, hvy, ?_⟩
    rcases hor with hle | hsq
    · exact absurd hle (not_le.mpr ht)
    · have h := (corr_ge_iff_sq hvx hvy ht).mp hsq
      simpa [pearson] using h
  · rintro ⟨hvx, hvy, hreal⟩
    refine ⟨⟨hvx, hvy⟩, Or.inr ?_⟩
    refine (corr_ge_iff_sq hvx hvy ht).mpr ?_
    simpa [pearson] using hreal

/-- sortKeyDesc really sorts descending by the key. -/
theorem sortKeyDesc_sorted {α : Type} (key : α → ℚ) (l : List α) :
    (sortKeyDesc key l).Sorted fun a b => key b ≤ key a := by
  haveI : IsTotal α fun a b => key b ≤ key a :=
    ⟨fun a b => le_total (key b) (key a)⟩
  haveI : IsTrans α fun a b => key b ≤ key a :=
    ⟨fun a b c h1 h2 => le_trans h2 h1⟩
  exact List.sorted_insertionSort _ l

/-- sortKeyDesc is a permutation of its input. -/
theorem sortKeyDesc_perm {α : Type} (key : α → ℚ) (l : List α) :
    (sortKeyDesc key l).Perm l :=
  List.perm_insertionSort _ l

/-- C9: analyser_correlation returns the no-result signal exactly when
there is no numeric column, no row, or no qualifying pair; a returned
report is a permutation of the rounded entries of exactly the
upper-triangle pairs whose comparison passes, sorted descending by the
reported correlation; and for a positive threshold a pair passes exactly
when its Pearson correlation is defined with absolute value at least the
threshold (so perfectly anti-correlated columns qualify whenever the
threshold is at most 1). -/
theorem C9_correlation_report (T : Table) (seuil : ℚ) :
    (analyser_correlation T seuil = none ↔
      (numericCols T = [] ∨ T.nrows = 0 ∨
        ((upairs (numericCols T)).filter fun p =>
          absCorrGe p.1.cells p.2.cells seuil) = [])) ∧
    (∀ l, analyser_correlation T seuil = some l →
      l.Perm (((upairs (numericCols T)).filter fun p =>
          absCorrGe p.1.cells p.2.cells seuil).map corrEntry) ∧
      l.Sorted fun a b => b.2.2 ≤ a.2.2) ∧
    (0 < seuil → ∀ xs ys : List (Option Val),
      (absCorrGe xs ys seuil = true ↔
        (0 < devSq ((pairedNums xs ys).map Prod.fst) ∧
         0 < devSq ((pairedNums xs ys).map Prod.snd) ∧
         (seuil : ℝ) ≤ |pearson xs ys|))) := by
  refine ⟨?_, ?_, fun ht xs ys => absCorrGe_iff_pearson xs ys ht⟩
  · rw [analyser_correlation]
    by_cases h0 : numericCols T = [] ∨ T.nrows = 0
    · rw [if_pos h0]
      simp only [eq_self_iff_true, true_iff]
      tauto
    · rw [if_neg h0]
      by_cases hp : ((upairs (numericCols T)).filter fun p =>
          absCorrGe p.1.cells p.2.cells seuil) = []
      · rw [hp]
        simp only [List.map_nil, if_pos rfl]
        simp [hp]
      · have hmap : (((upairs (numericCols T)).filter fun p =>
            absCorrGe p.1.cells p.2.cells seuil).map corrEntry) ≠ [] := by
          simpa [List.map_eq_nil_iff] using hp
        rw [if_neg hmap]
        simp only [reduceCtorEq, false_iff]
        push_neg
        refine ⟨fun h => absurd (Or.inl h) h0,
          fun h => absurd (Or.inr h) h0, hp⟩
  · intro l hl
    rw [analyser_correlation] at hl
    by_cases h0 : numericCols T = [] ∨ T.nrows = 0
    · rw [if_pos h0] at hl
      exact absurd hl (by simp)
    · rw [if_neg h0] at hl
      by_cases hmap : (((upairs (numericCols T)).filter fun p =>
          absCorrGe p.1.cells p.2.cells seuil).map corrEntry) = []
      · rw [if_pos hmap] at hl
        exact absurd hl (by simp)
      · rw [if_neg hmap] at hl
        have hl' := (Option.some.inj hl).symm
        subst hl'
        exact ⟨sortKeyDesc_perm _ _, sortKeyDesc_sorted _ _⟩

/-- A numeric column with values 1, 2, 3. -/
def colXW : Col := cNum "X" [some 1, some 2, some 3]

/-- A numeric column perfectly anti-correlated with colXW. -/
def colYW : Col := cNum "Y" [some 3, some 2, some 1]

/-- The two-column anti-correlated table. -/
def TW : Table := ⟨3, [colXW, colYW]⟩

/-- C9 witness: the perfectly anti-correlated pair is reported at
threshold 1 with rounded absolute correlation 1; its deviation product is
negative (correlation -1) and its absolute Pearson correlation is at least
1 by the equivalence of the comparison. -/
theorem C9_correlation_report_witness :
    analyser_correlation TW 1 = some [("X", "Y", 1)] ∧
    devProd (pairedNums colXW.cells colYW.cells) = -2 ∧
    ((1 : ℚ) : ℝ) ≤ |pearson colXW.cells colYW.cells| := by
  refine ⟨by decide, by decide, ?_⟩
  have h := (((C9_correlation_report TW 1).2.2 (by norm_num))
    colXW.cells colYW.cells).mp (by decide)
  exact h.2.2

end Retail
